import Mathlib

/-!
Verification of the crawling / extraction engine of `lab_5_scraper/scraper.py`
and the dataset layer of `lab_6_pipeline/pipeline.py`, as a shallow embedding:
pure Lean functions mirror the Python functions, stateful loops become step
functions over explicit state records, Python exceptions become `Except`
errors, and the filesystem / network become explicit function-valued inputs.
-/

namespace Scraper

/-! ### String helpers modelling Python primitives -/

/-- Model of Python `str.startswith`: test on the character sequence. -/
def pyStartsWith (s p : String) : Bool := p.data.isPrefixOf s.data

/-- Contiguous-substring test on character lists, modelling `needle in hay`. -/
def charInfix (needle : List Char) : List Char → Bool
  | [] => needle.isPrefixOf []
  | c :: t => needle.isPrefixOf (c :: t) || charInfix needle t

/-- Model of Python `needle in hay` on strings. -/
def pyContains (hay needle : String) : Bool := charInfix needle.data hay.data

/-- Lexicographic comparison of character lists by code point; this is the
order Python uses to compare strings. -/
def charLe : List Char → List Char → Bool
  | [], _ => true
  | _ :: _, [] => false
  | c :: cs, d :: ds => if c = d then charLe cs ds else decide (c < d)

/-- The Python string order, as a decidable relation. -/
def pyLe (a b : String) : Prop := charLe a.data b.data = true

instance : DecidableRel pyLe := fun a b =>
  inferInstanceAs (Decidable (charLe a.data b.data = true))

/-- Python `sorted` / `list.sort()` on strings: a stable sort by `pyLe`. -/
def pySortStrings (l : List String) : List String := l.insertionSort pyLe

/-- Fuelled splitter behind `pySplit`; the fuel is the length of the text,
enough because every step consumes at least one character. -/
def splitCharsFuel (sep : List Char) : Nat → List Char → List Char → List (List Char)
  | _, acc, [] => [acc.reverse]
  | 0, acc, l => [acc.reverse ++ l]
  | fuel + 1, acc, c :: rest =>
    if sep.isPrefixOf (c :: rest) ∧ sep ≠ [] then
      acc.reverse :: splitCharsFuel sep fuel [] (rest.drop (sep.length - 1))
    else splitCharsFuel sep fuel (c :: acc) rest

/-- Model of Python `s.split(sep)` for a non-empty separator: split at each
left-to-right, non-overlapping occurrence. -/
def pySplit (s sep : String) : List String :=
  (splitCharsFuel sep.data s.data.length [] s.data).map (fun l => ⟨l⟩)

/-- Model of Python `sep.join(parts)`. -/
def pyJoin (sep : String) (l : List String) : String :=
  ⟨((l.map String.data).intersperse sep.data).foldr (· ++ ·) []⟩

/-- Model of the falsiness of Python `s.strip()`: true when every character
is whitespace (`str.strip` removes a slightly larger whitespace class than
the four ASCII characters Lean checks; the difference does not matter for
the pages modelled here). -/
def pyBlank (s : String) : Bool := s.data.all Char.isWhitespace

/-! ### Configuration validation (`Config._validate_config_content`) -/

/-- Python runtime values as far as the validation code inspects them.
`pyBool` counts as an `int` for `isinstance(v, int)` because `bool` is a
subclass of `int` in Python; the validator therefore excludes it explicitly
where a genuine integer is required. -/
inductive PyVal where
  | pyNone
  | pyBool (b : Bool)
  | pyInt (n : Int)
  | pyStr (s : String)
  | pyList (xs : List PyVal)
  | pyDict (kv : List (String × PyVal))

/-- `isinstance(v, int)` — `true` for Python booleans as well. -/
def PyVal.isInstInt : PyVal → Bool
  | .pyInt _ => true
  | .pyBool _ => true
  | _ => false

/-- `isinstance(v, bool)`. -/
def PyVal.isInstBool : PyVal → Bool
  | .pyBool _ => true
  | _ => false

/-- `isinstance(v, str)`. -/
def PyVal.isInstStr : PyVal → Bool
  | .pyStr _ => true
  | _ => false

/-- `isinstance(v, dict)`. -/
def PyVal.isInstDict : PyVal → Bool
  | .pyDict _ => true
  | _ => false

/-- The numeric value of a Python `int` (with `True = 1`, `False = 0`). -/
def PyVal.asInt : PyVal → Int
  | .pyInt n => n
  | .pyBool b => if b then 1 else 0
  | _ => 0

/-- The raw fields of `ConfigDTO` before validation. -/
structure ConfigDTO where
  seedUrls : PyVal
  totalArticles : PyVal
  headers : PyVal
  encoding : PyVal
  timeout : PyVal
  shouldVerifyCertificate : PyVal
  headlessMode : PyVal

/-- The closed taxonomy of configuration errors raised by
`_validate_config_content`, one constructor per exception class. -/
inductive ConfigError where
  | incorrectSeedURL
  | numberOfArticlesOutOfRange
  | incorrectNumberOfArticles
  | incorrectHeaders
  | incorrectEncoding
  | incorrectTimeout
  | incorrectVerify
deriving DecidableEq, Repr

/-- The canonical domain prefix hard-coded in `scraper.py`. -/
def domainRoot : String := "https://pravda-nn.ru/"

/-- The seed-URL condition: a list, all strings, each containing the domain
prefix as a substring (the Python code checks containment, and only reaches
the containment test after all elements passed the string test, matching the
left-to-right short-circuit of `or`). -/
def seedUrlsValid (v : PyVal) : Bool :=
  match v with
  | .pyList xs =>
      xs.all PyVal.isInstStr &&
      !(xs.any (fun u =>
          match u with
          | .pyStr s => !(pyContains s domainRoot)
          | _ => false))
  | _ => false

/-- `Config._validate_config_content`: each check in source order; the first
violated check raises and stops construction. -/
def validateConfigContent (c : ConfigDTO) : Except ConfigError Unit :=
  if !(seedUrlsValid c.seedUrls) then
    .error .incorrectSeedURL
  else if !c.totalArticles.isInstInt || c.totalArticles.isInstBool
      || decide (c.totalArticles.asInt ≤ 0) then
    .error .incorrectNumberOfArticles
  else if !(decide (1 ≤ c.totalArticles.asInt) && decide (c.totalArticles.asInt ≤ 150)) then
    .error .numberOfArticlesOutOfRange
  else if !c.headers.isInstDict then
    .error .incorrectHeaders
  else if !c.encoding.isInstStr then
    .error .incorrectEncoding
  else if !c.timeout.isInstInt || c.timeout.isInstBool
      || !(decide (1 ≤ c.timeout.asInt) && decide (c.timeout.asInt ≤ 60)) then
    .error .incorrectTimeout
  else if !c.shouldVerifyCertificate.isInstBool || !c.headlessMode.isInstBool then
    .error .incorrectVerify
  else
    .ok ()

/-! ### Fetch layer (`make_request`) -/

/-- A validated configuration, holding the values the getters return after
`_validate_config_content` succeeded. -/
structure CrawlConfig where
  seedUrls : List String
  numArticles : Nat
  headers : List (String × String)
  encoding : String
  timeout : Int
  verifyCertificate : Bool

/-- The arguments of one `requests.get` call. -/
structure GetRequest where
  url : String
  headers : List (String × String)
  timeout : Int
  verify : Bool
deriving DecidableEq, Repr

/-- An HTTP response as the `requests` library hands it back: the success
flag, the raw body, and the response object attribute `encoding`, which is
what `Response.text` uses to decode the body. -/
structure HttpResponse where
  ok : Bool
  body : String
  encoding : String
deriving DecidableEq, Repr

/-- Model of `random.randint(lo, hi)`: an integer in `[lo, hi]` inclusive,
drawn from the generator state `seed`. -/
def randint (lo hi seed : Nat) : Nat := lo + seed % (hi + 1 - lo)

/-- The observable effects of one run of `make_request`: the politeness
sleep, the list of GET requests issued, the value assigned to the attribute
`requests.encoding` (an attribute set on the imported module object, which
nothing ever reads), and the returned response. The response keeps the
`encoding` the server produced: the assignment in the source touches the
module, not the response. -/
structure FetchTrace where
  sleepSeconds : Nat
  issued : List GetRequest
  requestsModuleEncoding : String
  result : HttpResponse
deriving DecidableEq, Repr

/-- `make_request(url, config)` against a network `world`. -/
def makeRequest (world : GetRequest → HttpResponse) (url : String)
    (config : CrawlConfig) (seed : Nat) : FetchTrace :=
  let a := randint 1 3 seed
  let req : GetRequest :=
    { url := url, headers := config.headers, timeout := config.timeout,
      verify := config.verifyCertificate }
  let response := world req
  { sleepSeconds := a, issued := [req],
    requestsModuleEncoding := config.encoding, result := response }

/-! ### Bounded crawler (`Crawler`) -/

/-- The excluded long-form section prefix. -/
def longSection : String := "https://pravda-nn.ru/long/"

/-- `Crawler._extract_url`: resolve the `href` against the domain root, then
return it only when it is new (not yet in `urls`) and not in the excluded
long-form section; otherwise return the empty-string sentinel. -/
def extractUrl (urls : List String) (href : String) : String :=
  let u := if pyStartsWith href domainRoot then href else domainRoot ++ href
  if u ∉ urls ∧ ¬ pyStartsWith u longSection = true then u else ""

/-- The per-seed quota `math.ceil(num_articles / len(seed_urls))`
(faithful for a non-empty seed list; Python raises `ZeroDivisionError`
on an empty one). -/
def perSeedQuota (total seeds : Nat) : Nat := (total + seeds - 1) / seeds

/-- The anchor loop of `Crawler.find_articles` over one seed page: extract
each candidate, skip the sentinel, append, and return with the flag set as
soon as the collected list reaches the target count. -/
def scanAnchors (total : Nat) : List String → List String → List String × Bool
  | urls, [] => (urls, false)
  | urls, href :: rest =>
    if extractUrl urls href = "" then scanAnchors total urls rest
    else if total ≤ (urls ++ [extractUrl urls href]).length then
      (urls ++ [extractUrl urls href], true)
    else scanAnchors total (urls ++ [extractUrl urls href]) rest

/-- The seed loop of `Crawler.find_articles`. `pages` is the network as the
crawler sees it: `none` when the fetch response is not `ok`, otherwise the
`href` attributes of the anchor elements matching the listing selectors, in
document order; `find_all(..., limit=num_urls)` scans at most `quota` of
them. -/
def findArticlesFrom (pages : String → Option (List String)) (total quota : Nat) :
    List String → List String → List String
  | urls, [] => urls
  | urls, seed :: seeds =>
    match pages seed with
    | none => findArticlesFrom pages total quota urls seeds
    | some anchors =>
      match scanAnchors total urls (anchors.take quota) with
      | (urls2, true) => urls2
      | (urls2, false) => findArticlesFrom pages total quota urls2 seeds

/-- `Crawler.find_articles` for a freshly constructed crawler
(`self.urls = []`). -/
def Crawler.findArticles (pages : String → Option (List String))
    (config : CrawlConfig) : List String :=
  findArticlesFrom pages config.numArticles
    (perSeedQuota config.numArticles config.seedUrls.length) [] config.seedUrls

/-! ### Resumable recursive crawler (`CrawlerRecursive`) -/

/-- `CrawlerRecursive.start_url`. -/
def startUrl : String := "https://pravda-nn.ru/"

/-- A fetched page as `CrawlerRecursive.find_articles` dissects it:
`anchors` are the `href` attributes matching the homepage section selectors
(`choice-title` / `nx-flex-row-btw`), scanned only when the processed URL is
the start URL; `blocks` are the `article-news__wrapper` containers, each
holding the `href` attributes of its `a` descendants. The quota check runs
once after each block. -/
structure RecPage where
  anchors : List String
  blocks : List (List String)
deriving DecidableEq, Repr

/-- The state of `CrawlerRecursive` between two iterations of the
`for base_url in self.urls` loop: the live `urls` list (the loop sees
elements appended during iteration), the `visited_urls` set (as a list),
the index the loop has reached, the contents of the checkpoint file
`cash.json` as an `(urls, visited_urls)` pair, and whether `find_articles`
has returned. -/
structure RecState where
  urls : List String
  visited : List String
  idx : Nat
  cash : List String × List String
  done : Bool
deriving DecidableEq, Repr

/-- Python `set.add` on the visited set (modelled as a duplicate-free
membership list). -/
def setAdd (s : List String) (x : String) : List String :=
  if x ∈ s then s else x :: s

/-- Enqueue one run of extracted URLs: skip the sentinel and
already-visited URLs, append the rest (`_extract_url` itself already
deduplicates against `urls`). -/
def enqueueAll (visited : List String) : List String → List String → List String
  | urls, [] => urls
  | urls, href :: rest =>
    if extractUrl urls href = "" ∨ extractUrl urls href ∈ visited then
      enqueueAll visited urls rest
    else enqueueAll visited (urls ++ [extractUrl urls href]) rest

/-- The `article-news__wrapper` block loop, with the quota check
`len(self.urls) - 1 >= num_articles` after each block; the flag reports
whether `find_articles` returned at that check. -/
def scanBlocks (total : Nat) (visited : List String) :
    List String → List (List String) → List String × Bool
  | urls, [] => (urls, false)
  | urls, b :: bs =>
    if (total : Int) ≤ ((enqueueAll visited urls b).length : Int) - 1 then
      (enqueueAll visited urls b, true)
    else scanBlocks total visited (enqueueAll visited urls b) bs

/-- One iteration of the loop in `CrawlerRecursive.find_articles`,
including the loop-exhaustion boundary: skip visited URLs, skip failed
fetches without marking them visited, expand a fetched page (homepage
anchors first when applicable, then the blocks with their quota check),
and either return truncated on quota (leaving the checkpoint file as it
was) or mark the URL visited and rewrite the checkpoint. When the whole
list is exhausted with the quota unmet, `find_articles` calls itself: the
`len(self.urls) == 1` guard at its top reloads the checkpoint in that
(rare) case, and iteration restarts from the front of the list. -/
def recStep (pages : String → Option RecPage) (total : Nat) (s : RecState) : RecState :=
  if s.done then s
  else if h : s.idx < s.urls.length then
    if s.urls.get ⟨s.idx, h⟩ ∈ s.visited then { s with idx := s.idx + 1 }
    else
      match pages (s.urls.get ⟨s.idx, h⟩) with
      | none => { s with idx := s.idx + 1 }
      | some page =>
        match scanBlocks total s.visited
            (if s.urls.get ⟨s.idx, h⟩ = startUrl
             then enqueueAll s.visited s.urls page.anchors
             else s.urls) page.blocks with
        | (urls2, true) =>
          { s with urls := (urls2.erase startUrl).take total, done := true }
        | (urls2, false) =>
          { urls := urls2,
            visited := setAdd s.visited (s.urls.get ⟨s.idx, h⟩),
            idx := s.idx + 1,
            cash := (urls2, setAdd s.visited (s.urls.get ⟨s.idx, h⟩)),
            done := false }
  else
    if (s.urls.length : Int) - 1 < (total : Int) then
      if s.urls.length = 1 then
        { s with urls := s.cash.1, visited := s.cash.2, idx := 0 }
      else { s with idx := 0 }
    else { s with done := true }

/-- Iterate `recStep` a given number of times. -/
def recRun (pages : String → Option RecPage) (total : Nat) :
    Nat → RecState → RecState
  | 0, s => s
  | n + 1, s => recRun pages total n (recStep pages total s)

/-- A fresh `CrawlerRecursive` (as `main2` builds it after a crash) whose
checkpoint file holds `cash`: `urls = [start_url]`, `visited_urls = {}`. -/
def recInit (cash : List String × List String) : RecState :=
  { urls := [startUrl], visited := [], idx := 0, cash := cash, done := false }

/-- The `len(self.urls) == 1` branch at the top of `find_articles`: load
frontier and visited set from the checkpoint file. -/
def recLoadCash (s : RecState) : RecState :=
  if s.urls.length = 1 then { s with urls := s.cash.1, visited := s.cash.2 }
  else s

/-- Re-running `find_articles` immediately after a crash: the fresh crawler
reloads the persisted checkpoint before its loop starts. -/
def recResume (cash : List String × List String) : RecState :=
  recLoadCash (recInit cash)

/-- The processed URL of a state, when the crawl is live, the loop index is
in range, the URL is unvisited and its fetch succeeds: exactly the
conditions under which `find_articles` expands a page. -/
def RecState.processes (pages : String → Option RecPage) (s : RecState)
    (u : String) : Prop :=
  s.done = false ∧ ∃ h : s.idx < s.urls.length,
    s.urls.get ⟨s.idx, h⟩ = u ∧ u ∉ s.visited ∧ (pages u).isSome = true

/-! ### Article extractor (`HTMLParser`) -/

/-- A publication timestamp: either parsed by `unify_date_format` from the
page text, or the wall-clock `datetime.datetime.now()`. -/
inductive DateVal where
  | parsedFrom (s : String)
  | wallClockNow
deriving DecidableEq, Repr

/-- `unify_date_format`: `strptime` with the fixed format
`%H:%M, %d.%m.%Y` (parse failure on a malformed string is not modelled; no
claim depends on it). -/
def unifyDateFormat (s : String) : DateVal := .parsedFrom s

/-- The article record fields the extractor fills. -/
structure ArticleRec where
  url : String
  articleId : Nat
  text : String
  title : String
  author : List String
  topics : List String
  date : DateVal
deriving DecidableEq, Repr

/-- Modelled from the spec: `Article(url, article_id)` construction comes
from `core_utils.article.article` (outside the two repository source
files). The fallback contract of the spec (a missing author container
yields the single-element sentinel list) relies on the freshly constructed
fields being empty/falsy. -/
def ArticleRec.init (url : String) (articleId : Nat) : ArticleRec :=
  { url := url, articleId := articleId, text := "", title := "",
    author := [], topics := [], date := .wallClockNow }

/-- The exception raised by `None.get('content')`. -/
inductive PyError where
  | attributeError
deriving DecidableEq, Repr

/-- The pieces of a page that `_fill_article_with_meta_information`
inspects. `ogTitleTag`: `none` when `find('meta', property="og:title")`
returns `None` (tag absent), `some c` when the tag exists with `content`
attribute `c` (`none` when the attribute is missing, as `Tag.get` returns
`None`). `authorTag`: `none` when the author container is absent, otherwise
the text of each child. `tagsTag`: `none` when the tag container is absent,
otherwise its `get_text(', ', strip=True)` result. `dateTag`: likewise for
the date container. -/
structure MetaSoup where
  ogTitleTag : Option (Option String)
  authorTag : Option (List String)
  tagsTag : Option String
  dateTag : Option String
deriving DecidableEq, Repr

/-- `HTMLParser._fill_article_with_meta_information`. The title step: when
the `og:title` meta tag is absent, `find` returns `None` and the call
`.get('content')` raises `AttributeError` before any fallback applies; when
the tag is present but the attribute is missing or empty, the falsy check
installs the sentinel. -/
def fillArticleWithMeta (a : ArticleRec) (articleId : Nat) (soup : MetaSoup) :
    Except PyError ArticleRec :=
  let a0 := { a with articleId := articleId }
  match soup.ogTitleTag with
  | none => .error .attributeError
  | some content =>
    let a1 :=
      match content with
      | none => { a0 with title := "NOT FOUND" }
      | some t =>
        if t = "" then { a0 with title := "NOT FOUND" }
        else { a0 with title := t }
    let a2 :=
      match soup.authorTag with
      | some kids => { a1 with author := kids }
      | none => a1
    let a3 := if a2.author = [] then { a2 with author := ["NOT FOUND"] } else a2
    let a4 :=
      match soup.tagsTag with
      | none => { a3 with topics := [] }
      | some txt => { a3 with topics := pySplit txt ", " }
    let a5 :=
      match soup.dateTag with
      | none => { a4 with date := .wallClockNow }
      | some d => { a4 with date := unifyDateFormat d }
    .ok a5

/-- `HTMLParser._fill_article_with_text`: join the non-blank texts of the
`p` / `li` / `h2` elements of every `article-content__wrapper` block with
newlines (the kept texts stay unstripped; only the emptiness test strips). -/
def fillArticleWithText (a : ArticleRec) (wrappers : List (List String)) :
    ArticleRec :=
  { a with text :=
      pyJoin "\n" ((wrappers.foldr (· ++ ·) []).filter (fun t => !(pyBlank t))) }

/-- The page behind one article URL, as `parse` reads it: the raw success
flag of the response and the element groups the two fill steps inspect. -/
structure ArticlePage where
  ok : Bool
  contentBlocks : List (List String)
  metaSoup : MetaSoup
deriving DecidableEq, Repr

/-- `HTMLParser.parse`: fetch once, then run both fill steps on the
response content. The source never consults `response.ok` here. -/
def HTMLParser.parse (world : String → ArticlePage) (fullUrl : String)
    (articleId : Nat) : Except PyError ArticleRec :=
  let page := world fullUrl
  let a0 := ArticleRec.init fullUrl articleId
  let a1 := fillArticleWithText a0 page.contentBlocks
  fillArticleWithMeta a1 articleId page.metaSoup

/-- What resuming from the persisted checkpoint `cash0` guarantees along
the crawl: every URL visited before the crash stays visited (and stays
recorded in the checkpoint), and every URL pending in the persisted
frontier stays in the live frontier while the crawl is running (and stays
recorded in the checkpoint). -/
def CashInv (cash0 : List String × List String) (s : RecState) : Prop :=
  (∀ u ∈ cash0.2, u ∈ s.visited) ∧
  (∀ u ∈ cash0.2, u ∈ s.cash.2) ∧
  (s.done = false → ∀ u ∈ cash0.1, u ∈ s.urls) ∧
  (∀ u ∈ cash0.1, u ∈ s.cash.1)

/-- The frontier-deduplication invariant of the recursive crawler: neither
the live frontier nor the checkpointed frontier holds a URL twice. -/
def NodupInv (s : RecState) : Prop := s.urls.Nodup ∧ s.cash.1.Nodup

/-- A concrete configuration in which every field is valid; the boundary
theorems vary one field at a time. -/
def baseDTO : ConfigDTO :=
  { seedUrls := .pyList [.pyStr "https://pravda-nn.ru/news/"]
  , totalArticles := .pyInt 10
  , headers := .pyDict []
  , encoding := .pyStr "utf-8"
  , timeout := .pyInt 30
  , shouldVerifyCertificate := .pyBool true
  , headlessMode := .pyBool false }

/-! ### Concrete inputs used to instantiate the general theorems -/

/-- A concrete validated configuration. -/
def cfgB : CrawlConfig :=
  { seedUrls := ["https://pravda-nn.ru/news/"], numArticles := 2,
    headers := [("User-Agent", "Mozilla/5.0")], encoding := "utf-8",
    timeout := 30, verifyCertificate := true }

/-- A concrete listing network for the bounded crawler. -/
def pagesB : String → Option (List String) := fun s =>
  if s = "https://pravda-nn.ru/news/" then
    some ["news/a", "news/b", "long/x", "news/a", "news/c"]
  else none

/-- A concrete network for the recursive crawler. -/
def pagesR : String → Option RecPage := fun s =>
  if s = startUrl then
    some { anchors := ["news/s1"], blocks := [["news/c1", "news/c2"]] }
  else if s = "https://pravda-nn.ru/b" then
    some { anchors := [], blocks := [["news/c3"]] }
  else none

/-- A concrete persisted checkpoint. -/
def cashW : List String × List String :=
  (["https://pravda-nn.ru/", "https://pravda-nn.ru/a", "https://pravda-nn.ru/b"],
   ["https://pravda-nn.ru/a"])

/-- A concrete state about to process the homepage. -/
def sW : RecState :=
  { urls := [startUrl], visited := [], idx := 0,
    cash := (["https://pravda-nn.ru/x"], []), done := false }

/-- A concrete homepage whose expansion meets the quota. -/
def pgW : RecPage := { anchors := ["news/a", "news/b"], blocks := [["news/c"]] }

/-- A concrete network serving that homepage. -/
def pagesW : String → Option RecPage := fun s =>
  if s = startUrl then some pgW else none

/-- A concrete article page whose fetch failed (`ok = false`) but whose
content is present. -/
def pageFail : ArticlePage :=
  { ok := false,
    contentBlocks := [["Body text", "  "]],
    metaSoup := { ogTitleTag := some (some "Title"), authorTag := some ["A"],
                  tagsTag := some "t1, t2", dateTag := some "10:15, 01.02.2024" } }

/-- A concrete network whose responses fail and carry a server encoding
different from the configured one. -/
def worldEnc : GetRequest → HttpResponse := fun _ =>
  { ok := false, body := "<html></html>", encoding := "windows-1251" }

end Scraper

namespace Pipeline

/-! ### Dataset validation (`CorpusManager._validate_dataset`) -/

/-- One directory entry: file name and `stat().st_size`. -/
structure FileEntry where
  name : String
  size : Nat
deriving DecidableEq, Repr

/-- The dataset directory as `_validate_dataset` probes it. -/
structure Dataset where
  pathExists : Bool
  isDir : Bool
  entries : List FileEntry
deriving DecidableEq, Repr

/-- The exception classes `_validate_dataset` raises, one constructor per
class: the three dataset-consistency failures share the single class
`InconsistentDatasetError`. -/
inductive ErrKind where
  | fileNotFoundError
  | notADirectoryError
  | emptyDirectoryError
  | inconsistentDatasetError
deriving DecidableEq, Repr

/-- A raised exception: its class and its message. -/
structure PyExc where
  kind : ErrKind
  msg : String
deriving DecidableEq, Repr

/-- The names of the entries whose name contains `raw`, in directory
order. -/
def rawsOf (ds : Dataset) : List String :=
  (ds.entries.filter (fun f => Scraper.pyContains f.name "raw")).map FileEntry.name

/-- The names of the entries whose name contains `meta`, in directory
order. -/
def metasOf (ds : Dataset) : List String :=
  (ds.entries.filter (fun f => Scraper.pyContains f.name "meta")).map FileEntry.name

/-- The names of the entries whose name contains `raw`, sorted as Python
`list.sort()` sorts strings. -/
def rawNames (ds : Dataset) : List String :=
  Scraper.pySortStrings (rawsOf ds)

/-- The names of the entries whose name contains `meta`, sorted. -/
def metaNames (ds : Dataset) : List String :=
  Scraper.pySortStrings (metasOf ds)

/-- The raw file names of a contiguous id range `1..k`:
`[f"{i}_raw.txt" for i in range(1, k + 1)]`. -/
def expectedRaw (k : Nat) : List String :=
  (List.range k).map (fun i => Nat.repr (i + 1) ++ "_raw.txt")

/-- The meta file names of a contiguous id range `1..k`. -/
def expectedMeta (k : Nat) : List String :=
  (List.range k).map (fun i => Nat.repr (i + 1) ++ "_meta.json")

/-- The expected raw names, sorted as the source sorts them. -/
def rawCheck (k : Nat) : List String :=
  Scraper.pySortStrings (expectedRaw k)

/-- The expected meta names, sorted. -/
def metaCheck (k : Nat) : List String :=
  Scraper.pySortStrings (expectedMeta k)

/-- `CorpusManager._validate_dataset`, check for check in source order. -/
def validateDataset (ds : Dataset) : Except PyExc Unit :=
  if ds.pathExists = false then
    .error ⟨.fileNotFoundError, "File with articles does not exist."⟩
  else if ds.isDir = false then
    .error ⟨.notADirectoryError, "The path does not lead to a directory."⟩
  else if ds.entries.isEmpty then
    .error ⟨.emptyDirectoryError, "This directory is empty."⟩
  else
    let raws := rawNames ds
    let metas := metaNames ds
    if raws.length ≠ metas.length then
      .error ⟨.inconsistentDatasetError, "Number of meta and raw files is not equal."⟩
    else if ds.entries.any (fun f =>
        f.size == 0 && (Scraper.pyContains f.name "raw" || Scraper.pyContains f.name "meta")) then
      .error ⟨.inconsistentDatasetError, "The file is empty."⟩
    else if (raws.zip (rawCheck raws.length)).any (fun p => !(p.1 == p.2)) ||
        (metas.zip (metaCheck metas.length)).any (fun p => !(p.1 == p.2)) then
      .error ⟨.inconsistentDatasetError, "IDs contain slips."⟩
    else
      .ok ()

/-- The exception class of a validation outcome (`none` on success). -/
def outcomeKind (r : Except PyExc Unit) : Option ErrKind :=
  match r with
  | .ok _ => none
  | .error e => some e.kind

/-- The spec-side description of a dataset on which validation should
succeed: the path exists and is a non-empty directory, no raw/meta file is
empty, and the raw and meta names are exactly the pairs
`i_raw.txt` / `i_meta.json` for the contiguous id range `1..K`. -/
def WellFormed (ds : Dataset) : Prop :=
  ds.pathExists = true ∧ ds.isDir = true ∧ ds.entries ≠ [] ∧
  (∀ f ∈ ds.entries,
      (Scraper.pyContains f.name "raw" = true ∨
        Scraper.pyContains f.name "meta" = true) →
      f.size ≠ 0) ∧
  (rawsOf ds).Perm (expectedRaw (rawsOf ds).length) ∧
  (metasOf ds).Perm (expectedMeta (rawsOf ds).length)

/-! ### Corpus storage (`CorpusManager._scan_dataset` / `get_articles`) -/

/-- Python dict assignment `storage[article_id] = article` on an
insertion-ordered association list. -/
def dictInsert (store : List (Nat × String)) (k : Nat) (v : String) :
    List (Nat × String) :=
  if store.any (fun p => p.1 == k) then
    store.map (fun p => if p.1 == k then (k, v) else p)
  else store ++ [(k, v)]

/-- `CorpusManager._scan_dataset`: for each raw file in scan order, load the
article (`from_raw`) and store it under its id. A file is modelled as the
pair of the article id and the loaded article payload. -/
def scanDataset (files : List (Nat × String)) : List (Nat × String) :=
  files.foldl (fun st f => dictInsert st f.1 f.2) []

/-- The key order used by `sorted(self._storage.items())`: tuples compare
by their first component first, and the ids of a dict are unique, so the
comparison never reaches the article values. -/
def keyLe (a b : Nat × String) : Prop := a.1 ≤ b.1

instance : DecidableRel keyLe := fun a b =>
  inferInstanceAs (Decidable (a.1 ≤ b.1))

/-- `CorpusManager.get_articles`: `dict(sorted(self._storage.items()))`. -/
def getArticles (store : List (Nat × String)) : List (Nat × String) :=
  store.insertionSort keyLe

/-- A concrete dataset with one raw file and no meta file. -/
def dsMismatch : Dataset :=
  { pathExists := true, isDir := true, entries := [⟨"1_raw.txt", 5⟩] }

/-- A concrete dataset whose ids jump from 1 to 3. -/
def dsGap : Dataset :=
  { pathExists := true, isDir := true,
    entries := [⟨"1_raw.txt", 5⟩, ⟨"3_raw.txt", 5⟩,
                ⟨"1_meta.json", 5⟩, ⟨"3_meta.json", 5⟩] }

/-- A concrete dataset with an empty raw file. -/
def dsEmptyFile : Dataset :=
  { pathExists := true, isDir := true,
    entries := [⟨"1_raw.txt", 0⟩, ⟨"1_meta.json", 5⟩] }

end Pipeline

namespace Scraper

/-! ### Theorems: configuration boundary behaviour -/

/-- C5: article counts 1 and 150 are accepted; 0 is rejected as
`IncorrectNumberOfArticlesError`; 151 is rejected as the distinct
`NumberOfArticlesOutOfRangeError`; and a boolean value is rejected, rather
than silently accepted, both for the article count and for the timeout. -/
theorem config_article_count_boundaries :
    validateConfigContent { baseDTO with totalArticles := .pyInt 1 } = .ok () ∧
    validateConfigContent { baseDTO with totalArticles := .pyInt 150 } = .ok () ∧
    validateConfigContent { baseDTO with totalArticles := .pyInt 0 }
      = .error .incorrectNumberOfArticles ∧
    validateConfigContent { baseDTO with totalArticles := .pyInt 151 }
      = .error .numberOfArticlesOutOfRange ∧
    validateConfigContent { baseDTO with totalArticles := .pyBool true }
      = .error .incorrectNumberOfArticles ∧
    validateConfigContent { baseDTO with totalArticles := .pyBool false }
      = .error .incorrectNumberOfArticles ∧
    validateConfigContent { baseDTO with timeout := .pyBool true }
      = .error .incorrectTimeout ∧
    validateConfigContent { baseDTO with timeout := .pyBool false }
      = .error .incorrectTimeout := by
  refine ⟨?_, ?_, ?_, ?_, ?_, ?_, ?_, ?_⟩ <;> rfl

/-! ### Lemmas: URL extraction and the bounded crawler -/

theorem extractUrl_spec (urls : List String) (href : String) :
    extractUrl urls href = "" ∨
    (extractUrl urls href ∉ urls ∧
      pyStartsWith (extractUrl urls href) longSection = false) := by
  simp only [extractUrl]
  generalize (if pyStartsWith href domainRoot then href else domainRoot ++ href) = u
  by_cases hc : u ∉ urls ∧ ¬ pyStartsWith u longSection = true
  · rw [if_pos hc]
    exact Or.inr ⟨hc.1, by simpa using hc.2⟩
  · rw [if_neg hc]
    exact Or.inl rfl

theorem scanAnchors_nodup (total : Nat) :
    ∀ hs urls : List String, urls.Nodup → (scanAnchors total urls hs).1.Nodup := by
  intro hs
  induction hs with
  | nil => intro urls h; simpa [scanAnchors] using h
  | cons href rest ih =>
    intro urls h
    simp only [scanAnchors]
    by_cases he : extractUrl urls href = ""
    · rw [if_pos he]; exact ih urls h
    · have hnew : (urls ++ [extractUrl urls href]).Nodup := by
        rcases extractUrl_spec urls href with h1 | h2
        · exact absurd h1 he
        · simp [List.nodup_append, h, h2.1]
      rw [if_neg he]
      by_cases ht : total ≤ (urls ++ [extractUrl urls href]).length
      · rw [if_pos ht]; exact hnew
      · rw [if_neg ht]; exact ih _ hnew

theorem scanAnchors_excluded (total : Nat) :
    ∀ hs urls, (∀ u ∈ urls, pyStartsWith u longSection = false) →
      ∀ u ∈ (scanAnchors total urls hs).1, pyStartsWith u longSection = false := by
  intro hs
  induction hs with
  | nil => intro urls h; simpa [scanAnchors] using h
  | cons href rest ih =>
    intro urls h
    simp only [scanAnchors]
    by_cases he : extractUrl urls href = ""
    · rw [if_pos he]; exact ih urls h
    · have hnew : ∀ u ∈ urls ++ [extractUrl urls href],
          pyStartsWith u longSection = false := by
        intro u hu
        rcases List.mem_append.1 hu with h1 | h1
        · exact h u h1
        · rcases extractUrl_spec urls href with h2 | h2
          · exact absurd h2 he
          · rw [List.mem_singleton.1 h1]
            exact h2.2
      rw [if_neg he]
      by_cases ht : total ≤ (urls ++ [extractUrl urls href]).length
      · rw [if_pos ht]; exact hnew
      · rw [if_neg ht]; exact ih _ hnew

theorem scanAnchors_length (total : Nat) :
    ∀ hs urls, urls.length < total →
      ((scanAnchors total urls hs).2 = true →
        (scanAnchors total urls hs).1.length = total) ∧
      ((scanAnchors total urls hs).2 = false →
        (scanAnchors total urls hs).1.length < total) := by
  intro hs
  induction hs with
  | nil => intro urls h; simp [scanAnchors, h]
  | cons href rest ih =>
    intro urls h
    simp only [scanAnchors]
    by_cases he : extractUrl urls href = ""
    · rw [if_pos he]; exact ih urls h
    · rw [if_neg he]
      by_cases ht : total ≤ (urls ++ [extractUrl urls href]).length
      · rw [if_pos ht]
        constructor
        · intro _
          simp at ht ⊢
          omega
        · intro hfalse; simp at hfalse
      · rw [if_neg ht]
        have hlt : (urls ++ [extractUrl urls href]).length < total := by
          simp at ht ⊢; omega
        exact ih _ hlt

theorem scanAnchors_stop (total : Nat) :
    ∀ pre suf urls, (scanAnchors total urls pre).2 = true →
      scanAnchors total urls (pre ++ suf) = scanAnchors total urls pre := by
  intro pre
  induction pre with
  | nil => intro suf urls h; simp [scanAnchors] at h
  | cons href rest ih =>
    intro suf urls h
    rw [List.cons_append]
    simp only [scanAnchors] at h ⊢
    by_cases he : extractUrl urls href = ""
    · simp only [if_pos he] at h ⊢
      exact ih suf urls h
    · simp only [if_neg he] at h ⊢
      by_cases ht : total ≤ (urls ++ [extractUrl urls href]).length
      · simp only [if_pos ht]
      · simp only [if_neg ht] at h ⊢
        exact ih suf _ h

theorem findArticlesFrom_length (pages : String → Option (List String))
    (total quota : Nat) :
    ∀ seeds urls, urls.length < total →
      (findArticlesFrom pages total quota urls seeds).length ≤ total := by
  intro seeds
  induction seeds with
  | nil => intro urls h; simpa [findArticlesFrom] using Nat.le_of_lt h
  | cons seed seeds ih =>
    intro urls h
    cases hp : pages seed with
    | none => simp only [findArticlesFrom, hp]; exact ih urls h
    | some anchors =>
      simp only [findArticlesFrom, hp]
      rcases hsc : scanAnchors total urls (anchors.take quota) with ⟨urls2, flag⟩
      cases flag with
      | true =>
        have := (scanAnchors_length total (anchors.take quota) urls h).1
        rw [hsc] at this
        simpa using Nat.le_of_eq (this rfl)
      | false =>
        have := (scanAnchors_length total (anchors.take quota) urls h).2
        rw [hsc] at this
        simpa using ih urls2 (this rfl)

theorem findArticlesFrom_nodup (pages : String → Option (List String))
    (total quota : Nat) :
    ∀ seeds urls, urls.Nodup →
      (findArticlesFrom pages total quota urls seeds).Nodup := by
  intro seeds
  induction seeds with
  | nil => intro urls h; simpa [findArticlesFrom] using h
  | cons seed seeds ih =>
    intro urls h
    cases hp : pages seed with
    | none => simp only [findArticlesFrom, hp]; exact ih urls h
    | some anchors =>
      simp only [findArticlesFrom, hp]
      rcases hsc : scanAnchors total urls (anchors.take quota) with ⟨urls2, flag⟩
      have hnd := scanAnchors_nodup total (anchors.take quota) urls h
      rw [hsc] at hnd
      cases flag with
      | true => simpa using hnd
      | false => simpa using ih urls2 hnd

theorem findArticlesFrom_excluded (pages : String → Option (List String))
    (total quota : Nat) :
    ∀ seeds urls, (∀ u ∈ urls, pyStartsWith u longSection = false) →
      ∀ u ∈ findArticlesFrom pages total quota urls seeds,
        pyStartsWith u longSection = false := by
  intro seeds
  induction seeds with
  | nil => intro urls h; simpa [findArticlesFrom] using h
  | cons seed seeds ih =>
    intro urls h
    cases hp : pages seed with
    | none => simp only [findArticlesFrom, hp]; exact ih urls h
    | some anchors =>
      simp only [findArticlesFrom, hp]
      rcases hsc : scanAnchors total urls (anchors.take quota) with ⟨urls2, flag⟩
      have hx := scanAnchors_excluded total (anchors.take quota) urls h
      rw [hsc] at hx
      cases flag with
      | true => simpa using hx
      | false => simpa using ih urls2 hx

/-- C2: for every run of the bounded crawler with a positive target count,
the result has length at most the target, holds no duplicates and no URL of
the excluded long-form section; the crawler stops mid-seed the moment the
target is reached (the remaining anchors of the seed are ignored and the
remaining seeds are never consulted); the per-seed quota is
`ceil(T / N)` by construction of `Crawler.findArticles`. -/
theorem bounded_crawler_contract (pages : String → Option (List String))
    (config : CrawlConfig) (h : 1 ≤ config.numArticles) :
    (Crawler.findArticles pages config).length ≤ config.numArticles ∧
    (Crawler.findArticles pages config).Nodup ∧
    (∀ u ∈ Crawler.findArticles pages config,
        pyStartsWith u longSection = false) ∧
    (∀ urls pre suf, (scanAnchors config.numArticles urls pre).2 = true →
        scanAnchors config.numArticles urls (pre ++ suf) =
          scanAnchors config.numArticles urls pre) ∧
    (∀ urls seed seeds anchors urls2,
        pages seed = some anchors →
        scanAnchors config.numArticles urls
            (anchors.take (perSeedQuota config.numArticles config.seedUrls.length))
          = (urls2, true) →
        findArticlesFrom pages config.numArticles
            (perSeedQuota config.numArticles config.seedUrls.length)
            urls (seed :: seeds)
          = urls2) := by
  refine ⟨?_, ?_, ?_, ?_, ?_⟩
  · exact findArticlesFrom_length pages _ _ _ [] (by simpa using h)
  · exact findArticlesFrom_nodup pages _ _ _ [] List.nodup_nil
  · exact findArticlesFrom_excluded pages _ _ _ [] (by simp)
  · intro urls pre suf hpre
    exact scanAnchors_stop config.numArticles pre suf urls hpre
  · intro urls seed seeds anchors urls2 hp hsc
    simp [findArticlesFrom, hp, hsc]

/-- Witness: the contract applied to a concrete seed page. -/
theorem bounded_crawler_contract_witness :
    1 ≤ cfgB.numArticles ∧
    (Crawler.findArticles pagesB cfgB).length ≤ cfgB.numArticles :=
  ⟨by decide, (bounded_crawler_contract pagesB cfgB (by decide)).1⟩

/-! ### Lemmas: the recursive crawler -/

theorem mem_setAdd_of_mem {v : List String} {x u : String} (h : u ∈ v) :
    u ∈ setAdd v x := by
  unfold setAdd
  split
  · exact h
  · exact List.mem_cons_of_mem _ h

theorem enqueueAll_append (visited : List String) :
    ∀ hs urls, ∃ extra, enqueueAll visited urls hs = urls ++ extra := by
  intro hs
  induction hs with
  | nil => intro urls; exact ⟨[], by simp [enqueueAll]⟩
  | cons href rest ih =>
    intro urls
    simp only [enqueueAll]
    by_cases hc : extractUrl urls href = "" ∨ extractUrl urls href ∈ visited
    · rw [if_pos hc]; exact ih urls
    · rw [if_neg hc]
      rcases ih (urls ++ [extractUrl urls href]) with ⟨extra, hx⟩
      exact ⟨extractUrl urls href :: extra, by simp [hx]⟩

theorem enqueueAll_nodup (visited : List String) :
    ∀ hs urls, urls.Nodup → (enqueueAll visited urls hs).Nodup := by
  intro hs
  induction hs with
  | nil => intro urls h; simpa [enqueueAll] using h
  | cons href rest ih =>
    intro urls h
    simp only [enqueueAll]
    by_cases hc : extractUrl urls href = "" ∨ extractUrl urls href ∈ visited
    · rw [if_pos hc]; exact ih urls h
    · rw [if_neg hc]
      have he : ¬ extractUrl urls href = "" := fun hx => hc (Or.inl hx)
      have hnew : (urls ++ [extractUrl urls href]).Nodup := by
        rcases extractUrl_spec urls href with h1 | h2
        · exact absurd h1 he
        · simp [List.nodup_append, h, h2.1]
      exact ih _ hnew

theorem enqueueAll_new_not_visited (visited : List String) :
    ∀ hs urls u, u ∈ enqueueAll visited urls hs → u ∉ urls → u ∉ visited := by
  intro hs
  induction hs with
  | nil =>
    intro urls u hm hn
    exact absurd (by simpa [enqueueAll] using hm) hn
  | cons href rest ih =>
    intro urls u hm hn
    simp only [enqueueAll] at hm
    by_cases hc : extractUrl urls href = "" ∨ extractUrl urls href ∈ visited
    · rw [if_pos hc] at hm; exact ih urls u hm hn
    · rw [if_neg hc] at hm
      by_cases hu : u ∈ urls ++ [extractUrl urls href]
      · have hue : u = extractUrl urls href := by
          rcases List.mem_append.1 hu with h1 | h1
          · exact absurd h1 hn
          · simpa using h1
        intro hv
        exact hc (Or.inr (hue ▸ hv))
      · exact ih _ u hm hu

theorem scanBlocks_append (total : Nat) (visited : List String) :
    ∀ bs urls, ∃ extra, (scanBlocks total visited urls bs).1 = urls ++ extra := by
  intro bs
  induction bs with
  | nil => intro urls; exact ⟨[], by simp [scanBlocks]⟩
  | cons b bs ih =>
    intro urls
    simp only [scanBlocks]
    rcases enqueueAll_append visited b urls with ⟨e1, h1⟩
    by_cases hq : (total : Int) ≤ ((enqueueAll visited urls b).length : Int) - 1
    · rw [if_pos hq]
      exact ⟨e1, by simpa using h1⟩
    · rw [if_neg hq]
      rcases ih (enqueueAll visited urls b) with ⟨e2, h2⟩
      exact ⟨e1 ++ e2, by rw [h2, h1, List.append_assoc]⟩

theorem scanBlocks_nodup (total : Nat) (visited : List String) :
    ∀ bs urls, urls.Nodup → (scanBlocks total visited urls bs).1.Nodup := by
  intro bs
  induction bs with
  | nil => intro urls h; simpa [scanBlocks] using h
  | cons b bs ih =>
    intro urls h
    simp only [scanBlocks]
    have hnew := enqueueAll_nodup visited b urls h
    by_cases hq : (total : Int) ≤ ((enqueueAll visited urls b).length : Int) - 1
    · rw [if_pos hq]; exact hnew
    · rw [if_neg hq]; exact ih _ hnew

theorem scanBlocks_quota (total : Nat) (visited : List String) :
    ∀ bs urls urls2, scanBlocks total visited urls bs = (urls2, true) →
      (total : Int) ≤ (urls2.length : Int) - 1 := by
  intro bs
  induction bs with
  | nil => intro urls urls2 h; simp [scanBlocks] at h
  | cons b bs ih =>
    intro urls urls2 h
    simp only [scanBlocks] at h
    by_cases hq : (total : Int) ≤ ((enqueueAll visited urls b).length : Int) - 1
    · rw [if_pos hq] at h
      have : enqueueAll visited urls b = urls2 := congrArg Prod.fst h
      rw [← this]
      exact hq
    · rw [if_neg hq] at h
      exact ih _ urls2 h

/-- The possible outcomes of one `recStep`, each tagged with the liveness
of the state it arose from; the frontier of a processing step extends the
old frontier and preserves its deduplication. -/
theorem recStep_shape (pages : String → Option RecPage) (total : Nat)
    (s : RecState) :
    recStep pages total s = s ∨
    (s.done = false ∧ recStep pages total s = { s with idx := s.idx + 1 }) ∨
    (s.done = false ∧ recStep pages total s = { s with idx := 0 }) ∨
    (s.done = false ∧ recStep pages total s
      = { s with urls := s.cash.1, visited := s.cash.2, idx := 0 }) ∨
    (s.done = false ∧ recStep pages total s = { s with done := true }) ∨
    (s.done = false ∧ ∃ urls2,
      (∃ extra, urls2 = s.urls ++ extra) ∧ (s.urls.Nodup → urls2.Nodup) ∧
      recStep pages total s
        = { s with urls := (urls2.erase startUrl).take total, done := true }) ∨
    (s.done = false ∧ ∃ urls2 base,
      (∃ extra, urls2 = s.urls ++ extra) ∧ (s.urls.Nodup → urls2.Nodup) ∧
      recStep pages total s
        = { urls := urls2, visited := setAdd s.visited base, idx := s.idx + 1,
            cash := (urls2, setAdd s.visited base), done := false }) := by
  cases hd : s.done with
  | true => exact Or.inl (by simp [recStep, hd])
  | false =>
    by_cases hlt : s.idx < s.urls.length
    · by_cases hv : s.urls.get ⟨s.idx, hlt⟩ ∈ s.visited
      · exact Or.inr (Or.inl ⟨rfl, by
          simp [recStep, hd, hlt, hv, -List.get_eq_getElem]⟩)
      · cases hp : pages (s.urls.get ⟨s.idx, hlt⟩) with
        | none =>
          exact Or.inr (Or.inl ⟨rfl, by
            simp [recStep, hd, hlt, hv, hp, -List.get_eq_getElem]⟩)
        | some page =>
          have hstruct : ∃ extra,
              (if s.urls.get ⟨s.idx, hlt⟩ = startUrl
               then enqueueAll s.visited s.urls page.anchors
               else s.urls) = s.urls ++ extra := by
            by_cases hb : s.urls.get ⟨s.idx, hlt⟩ = startUrl
            · rw [if_pos hb]; exact enqueueAll_append s.visited page.anchors s.urls
            · rw [if_neg hb]; exact ⟨[], by simp⟩
          have hndint : s.urls.Nodup →
              (if s.urls.get ⟨s.idx, hlt⟩ = startUrl
               then enqueueAll s.visited s.urls page.anchors
               else s.urls).Nodup := by
            intro hn
            by_cases hb : s.urls.get ⟨s.idx, hlt⟩ = startUrl
            · rw [if_pos hb]; exact enqueueAll_nodup s.visited page.anchors s.urls hn
            · rw [if_neg hb]; exact hn
          rcases hsb : scanBlocks total s.visited
              (if s.urls.get ⟨s.idx, hlt⟩ = startUrl
               then enqueueAll s.visited s.urls page.anchors
               else s.urls) page.blocks with ⟨urls2, flag⟩
          have hu2 : ∃ extra, urls2 = s.urls ++ extra := by
            rcases hstruct with ⟨e1, h1⟩
            rcases scanBlocks_append total s.visited page.blocks
                (if s.urls.get ⟨s.idx, hlt⟩ = startUrl
                 then enqueueAll s.visited s.urls page.anchors
                 else s.urls) with ⟨e2, h2⟩
            rw [hsb] at h2
            rw [h1] at h2
            refine ⟨e1 ++ e2, ?_⟩
            rw [← List.append_assoc]
            exact h2
          have hnd2 : s.urls.Nodup → urls2.Nodup := by
            intro hn
            have := scanBlocks_nodup total s.visited page.blocks
                (if s.urls.get ⟨s.idx, hlt⟩ = startUrl
                 then enqueueAll s.visited s.urls page.anchors
                 else s.urls) (hndint hn)
            rw [hsb] at this
            exact this
          cases flag with
          | true =>
            refine Or.inr (Or.inr (Or.inr (Or.inr (Or.inr (Or.inl
              ⟨rfl, urls2, hu2, hnd2, ?_⟩)))))
            simp [recStep, hd, hlt, hv, hp, hsb, -List.get_eq_getElem]
          | false =>
            refine Or.inr (Or.inr (Or.inr (Or.inr (Or.inr (Or.inr
              ⟨rfl, urls2, s.urls.get ⟨s.idx, hlt⟩, hu2, hnd2, ?_⟩)))))
            simp [recStep, hd, hlt, hv, hp, hsb, -List.get_eq_getElem]
    · by_cases hq : (s.urls.length : Int) - 1 < (total : Int)
      · by_cases h1 : s.urls.length = 1
        · refine Or.inr (Or.inr (Or.inr (Or.inl ⟨rfl, ?_⟩)))
          simp only [recStep, hd, Bool.false_eq_true, if_false, dif_neg hlt]
          rw [if_pos hq, if_pos h1]
        · refine Or.inr (Or.inr (Or.inl ⟨rfl, ?_⟩))
          simp only [recStep, hd, Bool.false_eq_true, if_false, dif_neg hlt]
          rw [if_pos hq, if_neg h1]
      · refine Or.inr (Or.inr (Or.inr (Or.inr (Or.inl ⟨rfl, ?_⟩))))
        simp only [recStep, hd, Bool.false_eq_true, if_false, dif_neg hlt]
        rw [if_neg hq]

theorem cashInv_step (pages : String → Option RecPage) (total : Nat)
    (cash0 : List String × List String) (s : RecState) (h : CashInv cash0 s) :
    CashInv cash0 (recStep pages total s) := by
  obtain ⟨ha, hb, hc, hd2⟩ := h
  rcases recStep_shape pages total s with h1 | ⟨hdf, h1⟩ | ⟨hdf, h1⟩ | ⟨hdf, h1⟩ |
      ⟨hdf, h1⟩ | ⟨hdf, urls2, hext, hnd, h1⟩ | ⟨hdf, urls2, base, hext, hnd, h1⟩
  · rw [h1]; exact ⟨ha, hb, hc, hd2⟩
  · rw [h1]; exact ⟨ha, hb, fun hx => hc hx, hd2⟩
  · rw [h1]; exact ⟨ha, hb, fun hx => hc hx, hd2⟩
  · rw [h1]; exact ⟨hb, hb, fun _ u hu => hd2 u hu, hd2⟩
  · rw [h1]; exact ⟨ha, hb, fun hx => by simp at hx, hd2⟩
  · rw [h1]; exact ⟨ha, hb, fun hx => by simp at hx, hd2⟩
  · rw [h1]
    rcases hext with ⟨extra, hex⟩
    refine ⟨fun u hu => mem_setAdd_of_mem (ha u hu),
        fun u hu => mem_setAdd_of_mem (ha u hu),
        fun _ u hu => ?_, fun u hu => ?_⟩
    · rw [hex]; exact List.mem_append.2 (Or.inl (hc hdf u hu))
    · rw [hex]; exact List.mem_append.2 (Or.inl (hc hdf u hu))

theorem cashInv_run (pages : String → Option RecPage) (total : Nat)
    (cash0 : List String × List String) :
    ∀ n s, CashInv cash0 s → CashInv cash0 (recRun pages total n s) := by
  intro n
  induction n with
  | zero => intro s h; exact h
  | succ n ih => intro s h; exact ih _ (cashInv_step pages total cash0 s h)

theorem recResume_eq (cash0 : List String × List String) :
    recResume cash0 =
      { urls := cash0.1, visited := cash0.2, idx := 0, cash := cash0,
        done := false } := by
  simp [recResume, recInit, recLoadCash]

theorem cashInv_resume (cash0 : List String × List String) :
    CashInv cash0 (recResume cash0) := by
  rw [recResume_eq]
  exact ⟨fun u hu => hu, fun u hu => hu, fun _ u hu => hu, fun u hu => hu⟩

theorem nodupInv_step (pages : String → Option RecPage) (total : Nat)
    (s : RecState) (h : NodupInv s) : NodupInv (recStep pages total s) := by
  obtain ⟨h1, h2⟩ := h
  rcases recStep_shape pages total s with hs | ⟨hdf, hs⟩ | ⟨hdf, hs⟩ | ⟨hdf, hs⟩ |
      ⟨hdf, hs⟩ | ⟨hdf, urls2, hext, hnd, hs⟩ | ⟨hdf, urls2, base, hext, hnd, hs⟩
  · rw [hs]; exact ⟨h1, h2⟩
  · rw [hs]; exact ⟨h1, h2⟩
  · rw [hs]; exact ⟨h1, h2⟩
  · rw [hs]; exact ⟨h2, h2⟩
  · rw [hs]; exact ⟨h1, h2⟩
  · rw [hs]
    exact ⟨((hnd h1).erase startUrl).sublist (List.take_sublist _ _), h2⟩
  · rw [hs]; exact ⟨hnd h1, hnd h1⟩

theorem nodupInv_run (pages : String → Option RecPage) (total : Nat) :
    ∀ n s, NodupInv s → NodupInv (recRun pages total n s) := by
  intro n
  induction n with
  | zero => intro s h; exact h
  | succ n ih => intro s h; exact ih _ (nodupInv_step pages total s h)

/-- C1: after each successfully processed URL (quota still unmet) the
checkpoint is rewritten to hold exactly the current frontier and visited
set; and a crawl resumed from a persisted checkpoint never loses a visited
URL (so the step guard never processes it again) and keeps every URL that
was pending in the persisted frontier in the live frontier for as long as
the crawl is running. -/
theorem recursive_crawler_checkpoint_resume (pages : String → Option RecPage)
    (total : Nat) (cash0 : List String × List String) (n : Nat) :
    (∀ (s : RecState) (pg : RecPage) (urls2 : List String)
        (h : s.idx < s.urls.length),
        s.done = false →
        s.urls.get ⟨s.idx, h⟩ ∉ s.visited →
        pages (s.urls.get ⟨s.idx, h⟩) = some pg →
        scanBlocks total s.visited
            (if s.urls.get ⟨s.idx, h⟩ = startUrl
             then enqueueAll s.visited s.urls pg.anchors
             else s.urls) pg.blocks = (urls2, false) →
        (recStep pages total s).cash
          = ((recStep pages total s).urls, (recStep pages total s).visited)) ∧
    (∀ u ∈ cash0.2, u ∈ (recRun pages total n (recResume cash0)).visited) ∧
    (∀ u ∈ (recRun pages total n (recResume cash0)).visited,
        ¬ RecState.processes pages (recRun pages total n (recResume cash0)) u) ∧
    ((recRun pages total n (recResume cash0)).done = false →
      ∀ u ∈ cash0.1, u ∈ (recRun pages total n (recResume cash0)).urls) := by
  have hinv := cashInv_run pages total cash0 n _ (cashInv_resume cash0)
  refine ⟨?_, hinv.1, ?_, hinv.2.2.1⟩
  · intro s pg urls2 h hdf hnv hpg hsb
    simp [recStep, hdf, h, hnv, hpg, hsb, -List.get_eq_getElem]
  · intro u hu hproc
    obtain ⟨hdf, hx, hget, hnv, hsome⟩ := hproc
    exact hnv hu

/-- Witness: resuming from a concrete checkpoint keeps its visited URL. -/
theorem recursive_crawler_checkpoint_resume_witness :
    "https://pravda-nn.ru/a" ∈ cashW.2 ∧
    "https://pravda-nn.ru/a" ∈ (recRun pagesR 5 3 (recResume cashW)).visited :=
  ⟨by decide,
   (recursive_crawler_checkpoint_resume pagesR 5 cashW 3).2.1 _ (by decide)⟩

/-- C3: in every reachable crawler state the pending frontier holds no URL
twice — for the bounded crawler the collected list of a run is
duplicate-free, and for the recursive crawler every state reached from a
resumed duplicate-free checkpoint keeps a duplicate-free frontier — and the
enqueue path never re-enqueues a URL that is already in the visited set. -/
theorem frontier_dedup_invariant (pages : String → Option (List String))
    (pagesRec : String → Option RecPage) (config : CrawlConfig)
    (total : Nat) (cash0 : List String × List String) (n : Nat)
    (hcash : cash0.1.Nodup) :
    (Crawler.findArticles pages config).Nodup ∧
    (recRun pagesRec total n (recResume cash0)).urls.Nodup ∧
    (∀ visited urls hrefs u,
        u ∈ enqueueAll visited urls hrefs → u ∉ urls → u ∉ visited) := by
  refine ⟨findArticlesFrom_nodup pages _ _ _ [] List.nodup_nil, ?_, ?_⟩
  · have hbase : NodupInv (recResume cash0) := by
      rw [recResume_eq]
      exact ⟨hcash, hcash⟩
    exact (nodupInv_run pagesRec total n _ hbase).1
  · intro visited urls hrefs u hm hn
    exact enqueueAll_new_not_visited visited hrefs urls u hm hn

/-- Witness: the dedup invariant at a concrete resumed checkpoint. -/
theorem frontier_dedup_invariant_witness :
    cashW.1.Nodup ∧ (recRun pagesR 5 2 (recResume cashW)).urls.Nodup :=
  ⟨by decide,
   (frontier_dedup_invariant pagesB pagesR cfgB 5 cashW 2 (by decide)).2.1⟩

/-- C4: when the block-loop quota check fires (the distinct enqueued URLs
beyond the homepage reach the target), the step removes the homepage entry,
truncates the frontier to exactly the target count, terminates, and leaves
the checkpoint file untouched (the return happens before the persist
step). -/
theorem recursive_crawler_quota_met (pages : String → Option RecPage)
    (total : Nat) (s : RecState) (pg : RecPage) (urls2 : List String)
    (h : s.idx < s.urls.length)
    (hdone : s.done = false)
    (hnv : s.urls.get ⟨s.idx, h⟩ ∉ s.visited)
    (hpg : pages (s.urls.get ⟨s.idx, h⟩) = some pg)
    (hnd : s.urls.Nodup)
    (hstart : startUrl ∈ s.urls)
    (hblocks : scanBlocks total s.visited
        (if s.urls.get ⟨s.idx, h⟩ = startUrl
         then enqueueAll s.visited s.urls pg.anchors
         else s.urls) pg.blocks = (urls2, true)) :
    recStep pages total s
      = { s with urls := (urls2.erase startUrl).take total, done := true } ∧
    (recStep pages total s).cash = s.cash ∧
    (recStep pages total s).done = true ∧
    (recStep pages total s).urls.length = total ∧
    startUrl ∉ (recStep pages total s).urls := by
  have hstep : recStep pages total s
      = { s with urls := (urls2.erase startUrl).take total, done := true } := by
    simp [recStep, hdone, h, hnv, hpg, hblocks, -List.get_eq_getElem]
  have hsup : ∃ extra, urls2 =
      (if s.urls.get ⟨s.idx, h⟩ = startUrl
       then enqueueAll s.visited s.urls pg.anchors
       else s.urls) ++ extra := by
    rcases scanBlocks_append total s.visited pg.blocks
        (if s.urls.get ⟨s.idx, h⟩ = startUrl
         then enqueueAll s.visited s.urls pg.anchors
         else s.urls) with ⟨e2, h2⟩
    rw [hblocks] at h2
    exact ⟨e2, h2⟩
  have hstart2 : startUrl ∈ urls2 := by
    rcases hsup with ⟨e2, h2⟩
    rw [h2]
    refine List.mem_append.2 (Or.inl ?_)
    by_cases hb : s.urls.get ⟨s.idx, h⟩ = startUrl
    · rw [if_pos hb]
      rcases enqueueAll_append s.visited pg.anchors s.urls with ⟨e1, h1⟩
      rw [h1]
      exact List.mem_append.2 (Or.inl hstart)
    · rw [if_neg hb]; exact hstart
  have hlen2 : total + 1 ≤ urls2.length := by
    have hq := scanBlocks_quota total s.visited pg.blocks _ urls2 hblocks
    omega
  have hnd2 : urls2.Nodup := by
    have hnd1 : (if s.urls.get ⟨s.idx, h⟩ = startUrl
        then enqueueAll s.visited s.urls pg.anchors
        else s.urls).Nodup := by
      by_cases hb : s.urls.get ⟨s.idx, h⟩ = startUrl
      · rw [if_pos hb]; exact enqueueAll_nodup s.visited pg.anchors s.urls hnd
      · rw [if_neg hb]; exact hnd
    have := scanBlocks_nodup total s.visited pg.blocks _ hnd1
    rw [hblocks] at this
    exact this
  refine ⟨hstep, by rw [hstep], by rw [hstep], ?_, ?_⟩
  · rw [hstep]
    have herase : (urls2.erase startUrl).length = urls2.length - 1 :=
      List.length_erase_of_mem hstart2
    simp only [List.length_take, herase]
    omega
  · rw [hstep]
    intro hmem
    have hmem2 : startUrl ∈ urls2.erase startUrl :=
      List.take_subset _ _ hmem
    have := (hnd2.mem_erase_iff.1 hmem2).1
    exact this rfl

/-! ### Theorems: fetch layer and extractor -/

/-- C6 (divergence witness): at a page where every expected element is
absent, the extractor raises `AttributeError` on the missing `og:title`
meta tag instead of producing a record with the sentinel title; all other
fallbacks (title sentinel for a present tag with missing content, sentinel
author list, empty topic list, wall-clock date) behave as specified. -/
theorem extractor_missing_title_tag_raises :
    fillArticleWithMeta (ArticleRec.init "https://pravda-nn.ru/news/a" 3) 3
      { ogTitleTag := none, authorTag := none, tagsTag := none, dateTag := none }
      = .error .attributeError ∧
    fillArticleWithMeta (ArticleRec.init "https://pravda-nn.ru/news/a" 3) 3
      { ogTitleTag := some none, authorTag := none, tagsTag := none,
        dateTag := none }
      = .ok { url := "https://pravda-nn.ru/news/a", articleId := 3, text := "",
              title := "NOT FOUND", author := ["NOT FOUND"], topics := [],
              date := .wallClockNow } :=
  ⟨rfl, rfl⟩

/-- C7 counterexample: on a fetch whose response is not successful, `parse`
still extracts — the produced record carries the body text and metadata of
the page, refuting that extraction proceeds only on a successful
response. -/
theorem parse_extracts_on_failed_fetch :
    pageFail.ok = false ∧
    HTMLParser.parse (fun _ => pageFail) "https://pravda-nn.ru/news/a" 1
      = .ok { url := "https://pravda-nn.ru/news/a", articleId := 1,
              text := "Body text", title := "Title", author := ["A"],
              topics := ["t1", "t2"], date := .parsedFrom "10:15, 01.02.2024" } :=
  ⟨rfl, rfl⟩

/-- C7 (amended): `parse` fetches the page once and runs extraction
unconditionally on the response content — the result does not depend on
the success flag of the response. -/
theorem parse_ignores_response_ok (okA okB : Bool)
    (blocks : List (List String)) (soup : MetaSoup) (url : String) (i : Nat) :
    HTMLParser.parse
        (fun _ => { ok := okA, contentBlocks := blocks, metaSoup := soup }) url i
      = HTMLParser.parse
        (fun _ => { ok := okB, contentBlocks := blocks, metaSoup := soup }) url i :=
  rfl

/-- C8 (divergence witness): `make_request` sleeps a whole number of
seconds in `[1, 3]`, issues exactly one GET with the configured headers,
timeout and certificate flag, and returns the raw (even non-success)
response without retry; but the configured encoding only reaches the
`requests` module attribute — the returned response still carries the
server encoding, so its body is not decoded with the configured one. -/
theorem make_request_trace :
    (∀ seed, 1 ≤ (makeRequest worldEnc domainRoot cfgB seed).sleepSeconds ∧
      (makeRequest worldEnc domainRoot cfgB seed).sleepSeconds ≤ 3) ∧
    (makeRequest worldEnc domainRoot cfgB 7).issued
      = [{ url := domainRoot, headers := cfgB.headers, timeout := cfgB.timeout,
           verify := cfgB.verifyCertificate }] ∧
    (makeRequest worldEnc domainRoot cfgB 7).result
      = worldEnc { url := domainRoot, headers := cfgB.headers,
                   timeout := cfgB.timeout,
                   verify := cfgB.verifyCertificate } ∧
    (makeRequest worldEnc domainRoot cfgB 7).result.ok = false ∧
    (makeRequest worldEnc domainRoot cfgB 7).requestsModuleEncoding
      = cfgB.encoding ∧
    (makeRequest worldEnc domainRoot cfgB 7).result.encoding = "windows-1251" ∧
    ¬ (makeRequest worldEnc domainRoot cfgB 7).result.encoding
      = cfgB.encoding := by
  refine ⟨?_, rfl, rfl, rfl, rfl, rfl, by decide⟩
  intro seed
  constructor
  · simp [makeRequest, randint]
  · simp [makeRequest, randint]
    omega

/-- Witness: the quota-met terminal step on a concrete homepage. -/
theorem recursive_crawler_quota_met_witness :
    (recStep pagesW 1 sW).urls.length = 1 ∧ (recStep pagesW 1 sW).cash = sW.cash :=
  ⟨(recursive_crawler_quota_met pagesW 1 sW pgW
      ["https://pravda-nn.ru/", "https://pravda-nn.ru/news/a",
       "https://pravda-nn.ru/news/b", "https://pravda-nn.ru/news/c"]
      (by decide) (by decide) (by decide) (by decide) (by decide) (by decide)
      (by decide)).2.2.2.1,
   (recursive_crawler_quota_met pagesW 1 sW pgW
      ["https://pravda-nn.ru/", "https://pravda-nn.ru/news/a",
       "https://pravda-nn.ru/news/b", "https://pravda-nn.ru/news/c"]
      (by decide) (by decide) (by decide) (by decide) (by decide) (by decide)
      (by decide)).2.1⟩

/-! ### Lemmas: the Python string order -/

theorem charLe_trans :
    ∀ a b c : List Char, charLe a b = true → charLe b c = true →
      charLe a c = true := by
  intro a
  induction a with
  | nil => intro b c h1 h2; rfl
  | cons x xs ih =>
    intro b c h1 h2
    cases b with
    | nil => simp [charLe] at h1
    | cons y ys =>
      cases c with
      | nil => simp [charLe] at h2
      | cons z zs =>
        simp only [charLe] at h1 h2 ⊢
        by_cases hxy : x = y
        · rw [if_pos hxy] at h1
          by_cases hyz : y = z
          · rw [if_pos (hxy.trans hyz)]
            rw [if_pos hyz] at h2
            exact ih ys zs h1 h2
          · rw [if_neg hyz] at h2
            rw [if_neg (fun hxz : x = z => hyz (hxy.symm.trans hxz))]
            rw [hxy]
            exact h2
        · rw [if_neg hxy] at h1
          have hlt1 : x < y := by simpa using h1
          by_cases hyz : y = z
          · rw [if_neg (fun hxz : x = z => hxy (hxz.trans hyz.symm))]
            rw [← hyz]
            exact h1
          · rw [if_neg hyz] at h2
            have hlt2 : y < z := by simpa using h2
            have hlt3 : x < z := lt_trans hlt1 hlt2
            rw [if_neg (ne_of_lt hlt3)]
            simpa using hlt3

theorem charLe_total :
    ∀ a b : List Char, charLe a b = true ∨ charLe b a = true := by
  intro a
  induction a with
  | nil => intro b; exact Or.inl rfl
  | cons x xs ih =>
    intro b
    cases b with
    | nil => exact Or.inr rfl
    | cons y ys =>
      simp only [charLe]
      by_cases hxy : x = y
      · rw [if_pos hxy, if_pos hxy.symm]
        exact ih ys
      · rw [if_neg hxy, if_neg (fun h : y = x => hxy h.symm)]
        rcases lt_or_gt_of_ne (show x ≠ y from hxy) with hlt | hlt
        · exact Or.inl (by simpa using hlt)
        · exact Or.inr (by simpa using hlt)

theorem charLe_antisymm :
    ∀ a b : List Char, charLe a b = true → charLe b a = true → a = b := by
  intro a
  induction a with
  | nil =>
    intro b h1 h2
    cases b with
    | nil => rfl
    | cons y ys => simp [charLe] at h2
  | cons x xs ih =>
    intro b h1 h2
    cases b with
    | nil => simp [charLe] at h1
    | cons y ys =>
      simp only [charLe] at h1 h2
      by_cases hxy : x = y
      · rw [if_pos hxy] at h1
        rw [if_pos hxy.symm] at h2
        rw [hxy, ih ys h1 h2]
      · rw [if_neg hxy] at h1
        rw [if_neg (fun h : y = x => hxy h.symm)] at h2
        have hlt1 : x < y := by simpa using h1
        have hlt2 : y < x := by simpa using h2
        exact absurd hlt2 (not_lt_of_gt hlt1)

theorem pyLe_trans {a b c : String} (h1 : pyLe a b) (h2 : pyLe b c) :
    pyLe a c := charLe_trans a.data b.data c.data h1 h2

theorem pyLe_total (a b : String) : pyLe a b ∨ pyLe b a :=
  charLe_total a.data b.data

theorem pyLe_antisymm {a b : String} (h1 : pyLe a b) (h2 : pyLe b a) :
    a = b := by
  have hdata := charLe_antisymm a.data b.data h1 h2
  cases a
  cases b
  exact congrArg String.mk hdata

theorem pySortStrings_perm (l : List String) : (pySortStrings l).Perm l :=
  List.perm_insertionSort pyLe l

theorem pySortStrings_sorted (l : List String) :
    (pySortStrings l).Sorted pyLe := by
  haveI : IsTotal String pyLe := ⟨pyLe_total⟩
  haveI : IsTrans String pyLe := ⟨fun _ _ _ => pyLe_trans⟩
  exact List.sorted_insertionSort pyLe l

theorem pySortStrings_length (l : List String) :
    (pySortStrings l).length = l.length :=
  (pySortStrings_perm l).length_eq

theorem pySortStrings_eq_iff_perm (a b : List String) :
    pySortStrings a = pySortStrings b ↔ a.Perm b := by
  constructor
  · intro h
    exact (pySortStrings_perm a).symm.trans (h ▸ pySortStrings_perm b)
  · intro h
    haveI : IsAntisymm String pyLe := ⟨fun _ _ => pyLe_antisymm⟩
    exact List.eq_of_perm_of_sorted
      ((pySortStrings_perm a).trans (h.trans (pySortStrings_perm b).symm))
      (pySortStrings_sorted a) (pySortStrings_sorted b)

end Scraper

namespace Pipeline

/-! ### Theorems: dataset validation -/

/-- C9 counterexample: a raw/meta count mismatch, an id-sequence gap and an
empty raw file are all reported through the same exception class
`InconsistentDatasetError` — their kinds coincide instead of being
distinct. -/
theorem dataset_error_kinds_not_distinct :
    outcomeKind (validateDataset dsMismatch)
      = some .inconsistentDatasetError ∧
    outcomeKind (validateDataset dsGap)
      = some .inconsistentDatasetError ∧
    outcomeKind (validateDataset dsEmptyFile)
      = some .inconsistentDatasetError ∧
    outcomeKind (validateDataset dsMismatch)
      = outcomeKind (validateDataset dsGap) ∧
    outcomeKind (validateDataset dsGap)
      = outcomeKind (validateDataset dsEmptyFile) := by
  refine ⟨?_, ?_, ?_, ?_, ?_⟩ <;> rfl

theorem zip_any_ne_false_iff :
    ∀ l1 l2 : List String, l1.length = l2.length →
      (((l1.zip l2).any (fun p => !(p.1 == p.2))) = false ↔ l1 = l2) := by
  intro l1
  induction l1 with
  | nil =>
    intro l2 h
    cases l2 with
    | nil => simp
    | cons y ys => simp at h
  | cons x xs ih =>
    intro l2 h
    cases l2 with
    | nil => simp at h
    | cons y ys =>
      have hlen : xs.length = ys.length := by simpa using h
      simp [List.cons.injEq, ih ys hlen, and_comm]

theorem anyEmpty_false_iff (ds : Dataset) :
    (ds.entries.any (fun f => f.size == 0 &&
        (Scraper.pyContains f.name "raw" || Scraper.pyContains f.name "meta")))
      = false ↔
    (∀ f ∈ ds.entries,
        (Scraper.pyContains f.name "raw" = true ∨
          Scraper.pyContains f.name "meta" = true) →
        f.size ≠ 0) := by
  simp only [List.any_eq_false, Bool.and_eq_true, beq_iff_eq, Bool.or_eq_true,
    not_and]
  constructor
  · intro h f hf hor hsz
    exact h f hf hsz hor
  · intro h f hf hsz hor
    exact h f hf hor hsz

theorem rawCheck_length (k : Nat) : (rawCheck k).length = k := by
  simp [rawCheck, Scraper.pySortStrings_length, expectedRaw]

theorem metaCheck_length (k : Nat) : (metaCheck k).length = k := by
  simp [metaCheck, Scraper.pySortStrings_length, expectedMeta]

theorem rawZip_false_iff (ds : Dataset) :
    (((rawNames ds).zip (rawCheck (rawNames ds).length)).any
        (fun p => !(p.1 == p.2))) = false ↔
      (rawsOf ds).Perm (expectedRaw (rawsOf ds).length) := by
  have h1 : (rawNames ds).length = (rawsOf ds).length :=
    Scraper.pySortStrings_length _
  rw [h1]
  have hlen : (rawNames ds).length = (rawCheck (rawsOf ds).length).length := by
    rw [h1, rawCheck_length]
  rw [zip_any_ne_false_iff _ _ hlen]
  exact Scraper.pySortStrings_eq_iff_perm _ _

theorem metaZip_false_iff (ds : Dataset) :
    (((metaNames ds).zip (metaCheck (metaNames ds).length)).any
        (fun p => !(p.1 == p.2))) = false ↔
      (metasOf ds).Perm (expectedMeta (metasOf ds).length) := by
  have h1 : (metaNames ds).length = (metasOf ds).length :=
    Scraper.pySortStrings_length _
  rw [h1]
  have hlen : (metaNames ds).length = (metaCheck (metasOf ds).length).length := by
    rw [h1, metaCheck_length]
  rw [zip_any_ne_false_iff _ _ hlen]
  exact Scraper.pySortStrings_eq_iff_perm _ _

/-- C9 (amended): missing directory, non-directory and empty directory each
raise their own exception class; a raw/meta count mismatch, an id-sequence
gap and an empty raw/meta file all raise the one class
`InconsistentDatasetError` (distinguished only by message); and validation
succeeds exactly on the well-formed datasets (contiguous `1..K` raw/meta
pairs, no empty raw/meta file). -/
theorem validateDataset_spec (ds : Dataset) :
    (ds.pathExists = false →
      outcomeKind (validateDataset ds) = some .fileNotFoundError) ∧
    (ds.pathExists = true → ds.isDir = false →
      outcomeKind (validateDataset ds) = some .notADirectoryError) ∧
    (ds.pathExists = true → ds.isDir = true → ds.entries = [] →
      outcomeKind (validateDataset ds) = some .emptyDirectoryError) ∧
    (validateDataset ds = .ok () ↔ WellFormed ds) := by
  refine ⟨?_, ?_, ?_, ?_⟩
  · intro h1
    simp [validateDataset, outcomeKind, h1]
  · intro h1 h2
    simp [validateDataset, outcomeKind, h1, h2]
  · intro h1 h2 h3
    simp [validateDataset, outcomeKind, h1, h2, h3]
  · by_cases h1 : ds.pathExists = false
    · simp [validateDataset, WellFormed, h1]
    · have h1x : ds.pathExists = true := by simpa using h1
      by_cases h2 : ds.isDir = false
      · simp [validateDataset, WellFormed, h1x, h2]
      · have h2x : ds.isDir = true := by simpa using h2
        by_cases h3 : ds.entries = []
        · simp [validateDataset, WellFormed, h1x, h2x, h3]
        · have h3x : ds.entries.isEmpty = false := by
            simp [List.isEmpty_iff, h3]
          have hrl : (rawNames ds).length = (rawsOf ds).length :=
            Scraper.pySortStrings_length _
          have hml : (metaNames ds).length = (metasOf ds).length :=
            Scraper.pySortStrings_length _
          rw [show validateDataset ds =
              (if (rawNames ds).length ≠ (metaNames ds).length then
                Except.error ⟨ErrKind.inconsistentDatasetError,
                  "Number of meta and raw files is not equal."⟩
              else if ds.entries.any (fun f => f.size == 0 &&
                  (Scraper.pyContains f.name "raw" ||
                    Scraper.pyContains f.name "meta")) then
                Except.error ⟨ErrKind.inconsistentDatasetError,
                  "The file is empty."⟩
              else if ((rawNames ds).zip
                    (rawCheck (rawNames ds).length)).any
                      (fun p => !(p.1 == p.2)) ||
                  ((metaNames ds).zip
                    (metaCheck (metaNames ds).length)).any
                      (fun p => !(p.1 == p.2)) then
                Except.error ⟨ErrKind.inconsistentDatasetError,
                  "IDs contain slips."⟩
              else Except.ok ()) from by
            simp [validateDataset, h1x, h2x, h3x]]
          rw [show WellFormed ds ↔
              ((∀ f ∈ ds.entries,
                  (Scraper.pyContains f.name "raw" = true ∨
                    Scraper.pyContains f.name "meta" = true) →
                  f.size ≠ 0) ∧
                (rawsOf ds).Perm (expectedRaw (rawsOf ds).length) ∧
                (metasOf ds).Perm (expectedMeta (rawsOf ds).length)) from by
            simp [WellFormed, h1x, h2x, h3]]
          split_ifs with hlen hemp hzip
          · constructor
            · intro hok
              exact absurd hok (by simp)
            · rintro ⟨hne, hraw, hmeta⟩
              refine absurd ?_ hlen
              rw [hrl, hml, hraw.length_eq, hmeta.length_eq]
              simp [expectedRaw, expectedMeta]
          · constructor
            · intro hok
              exact absurd hok (by simp)
            · rintro ⟨hne, hraw, hmeta⟩
              have := (anyEmpty_false_iff ds).2 hne
              rw [this] at hemp
              exact absurd hemp (by simp)
          · constructor
            · intro hok
              exact absurd hok (by simp)
            · rintro ⟨hne, hraw, hmeta⟩
              have hKeq : (metasOf ds).length = (rawsOf ds).length := by
                rw [hmeta.length_eq]
                simp [expectedMeta]
              have hz1 : (((rawNames ds).zip
                  (rawCheck (rawNames ds).length)).any
                    (fun p => !(p.1 == p.2))) = false :=
                (rawZip_false_iff ds).2 hraw
              have hz2 : (((metaNames ds).zip
                  (metaCheck (metaNames ds).length)).any
                    (fun p => !(p.1 == p.2))) = false :=
                (metaZip_false_iff ds).2 (by rw [hKeq]; exact hmeta)
              rw [hz1, hz2] at hzip
              exact absurd hzip (by simp)
          · constructor
            · intro _
              have hlenx : (rawNames ds).length = (metaNames ds).length := by
                by_contra hne
                exact hlen hne
              have hKeq : (metasOf ds).length = (rawsOf ds).length := by
                rw [← hrl, ← hml, hlenx]
              have hemp2 : (ds.entries.any (fun f => f.size == 0 &&
                  (Scraper.pyContains f.name "raw" ||
                    Scraper.pyContains f.name "meta"))) = false := by
                cases hx : (ds.entries.any (fun f => f.size == 0 &&
                    (Scraper.pyContains f.name "raw" ||
                      Scraper.pyContains f.name "meta"))) with
                | false => rfl
                | true => exact absurd hx hemp
              have hzfalse : (((rawNames ds).zip
                    (rawCheck (rawNames ds).length)).any
                      (fun p => !(p.1 == p.2)) ||
                  ((metaNames ds).zip
                    (metaCheck (metaNames ds).length)).any
                      (fun p => !(p.1 == p.2))) = false := by
                cases hx : (((rawNames ds).zip
                    (rawCheck (rawNames ds).length)).any
                      (fun p => !(p.1 == p.2)) ||
                  ((metaNames ds).zip
                    (metaCheck (metaNames ds).length)).any
                      (fun p => !(p.1 == p.2))) with
                | false => rfl
                | true => exact absurd hx hzip
              have hz := Bool.or_eq_false_iff.1 hzfalse
              refine ⟨(anyEmpty_false_iff ds).1 hemp2,
                (rawZip_false_iff ds).1 hz.1, ?_⟩
              have := (metaZip_false_iff ds).1 hz.2
              rw [hKeq] at this
              exact this
            · intro _
              rfl


/-! ### Theorems: corpus storage -/

theorem keyLe_total (a b : Nat × String) : keyLe a b ∨ keyLe b a :=
  Nat.le_total a.1 b.1

theorem keyLe_trans {a b c : Nat × String} (h1 : keyLe a b) (h2 : keyLe b c) :
    keyLe a c := le_trans h1 h2

theorem dictInsert_fresh (store : List (Nat × String)) (k : Nat) (v : String)
    (h : ∀ p ∈ store, p.1 ≠ k) : dictInsert store k v = store ++ [(k, v)] := by
  have hany : (store.any (fun p => p.1 == k)) = false := by
    simp only [List.any_eq_false]
    intro p hp
    simpa using h p hp
  simp [dictInsert, hany]

theorem scanDataset_aux :
    ∀ (files acc : List (Nat × String)),
      (∀ p ∈ acc, ∀ q ∈ files, p.1 ≠ q.1) →
      (files.map Prod.fst).Nodup →
      files.foldl (fun st f => dictInsert st f.1 f.2) acc = acc ++ files := by
  intro files
  induction files with
  | nil => intro acc _ _; simp
  | cons f fs ih =>
    intro acc hdisj hnd
    have hx : f.1 ∉ fs.map Prod.fst ∧ (fs.map Prod.fst).Nodup := by
      simpa [List.nodup_cons] using hnd
    simp only [List.foldl_cons]
    have hins : dictInsert acc f.1 f.2 = acc ++ [f] := by
      have := dictInsert_fresh acc f.1 f.2
        (fun p hp => hdisj p hp f (List.mem_cons_self f fs))
      simpa using this
    rw [hins, ih (acc ++ [f]) ?_ hx.2]
    · simp
    · intro p hp q hq
      rcases List.mem_append.1 hp with hp1 | hp1
      · exact hdisj p hp1 q (List.mem_cons_of_mem _ hq)
      · have hpf : p = f := by simpa using hp1
        subst hpf
        intro hpq
        exact hx.1 (hpq ▸ List.mem_map_of_mem Prod.fst hq)

/-- With one raw file per id, the scan registers exactly the given files,
in scan order. -/
theorem scanDataset_eq (files : List (Nat × String))
    (h : (files.map Prod.fst).Nodup) : scanDataset files = files := by
  have := scanDataset_aux files [] (by simp) h
  simpa [scanDataset] using this

theorem getArticles_perm (store : List (Nat × String)) :
    (getArticles store).Perm store :=
  List.perm_insertionSort keyLe store

theorem getArticles_sorted (store : List (Nat × String)) :
    (getArticles store).Sorted keyLe := by
  haveI : IsTotal (Nat × String) keyLe := ⟨keyLe_total⟩
  haveI : IsTrans (Nat × String) keyLe := ⟨fun _ _ _ => keyLe_trans⟩
  exact List.sorted_insertionSort keyLe store

theorem getArticles_keys_strict (store : List (Nat × String))
    (h : (store.map Prod.fst).Nodup) :
    ((getArticles store).map Prod.fst).Sorted (· < ·) := by
  have hperm : ((getArticles store).map Prod.fst).Perm (store.map Prod.fst) :=
    (getArticles_perm store).map Prod.fst
  have hnd : ((getArticles store).map Prod.fst).Nodup := hperm.nodup_iff.2 h
  have hnd2 : (getArticles store).Pairwise
      (fun x y : Nat × String => x.1 ≠ y.1) := List.pairwise_map.1 hnd
  have hs : (getArticles store).Pairwise keyLe := getArticles_sorted store
  have hand := hs.and hnd2
  exact List.pairwise_map.2 (hand.imp (fun hab => lt_of_le_of_ne hab.1 hab.2))

theorem getArticles_eq_of_perm (a b : List (Nat × String))
    (hperm : a.Perm b) (h : (b.map Prod.fst).Nodup) :
    getArticles a = getArticles b := by
  have ha : (a.map Prod.fst).Nodup := (hperm.map Prod.fst).nodup_iff.2 h
  haveI : IsAntisymm (Nat × String) (fun x y : Nat × String => x.1 < y.1) :=
    ⟨fun x y h1 h2 => absurd (lt_trans h1 h2) (lt_irrefl _)⟩
  have hsa : (getArticles a).Sorted (fun x y : Nat × String => x.1 < y.1) :=
    List.pairwise_map.1 (getArticles_keys_strict a ha)
  have hsb : (getArticles b).Sorted (fun x y : Nat × String => x.1 < y.1) :=
    List.pairwise_map.1 (getArticles_keys_strict b h)
  exact List.eq_of_perm_of_sorted
    ((getArticles_perm a).trans (hperm.trans (getArticles_perm b).symm)) hsa hsb

/-- C10: over a valid dataset (one raw file per article id), `get_articles`
returns exactly the loaded articles as an id-keyed mapping whose entries
are in strictly ascending id order, and the result is the same for every
filesystem order in which the raw files are scanned. -/
theorem corpus_get_articles_sorted (files files2 : List (Nat × String))
    (hperm : files2.Perm files) (hids : (files.map Prod.fst).Nodup) :
    getArticles (scanDataset files2) = getArticles (scanDataset files) ∧
    (getArticles (scanDataset files)).Perm files ∧
    ((getArticles (scanDataset files)).map Prod.fst).Sorted (· < ·) := by
  have hids2 : (files2.map Prod.fst).Nodup := (hperm.map Prod.fst).nodup_iff.2 hids
  rw [scanDataset_eq files hids, scanDataset_eq files2 hids2]
  exact ⟨getArticles_eq_of_perm files2 files hperm hids,
    getArticles_perm files, getArticles_keys_strict files hids⟩

/-- Witness: two scan orders of a concrete two-article dataset give the
same sorted mapping. -/
theorem corpus_get_articles_sorted_witness :
    getArticles (scanDataset [((2 : Nat), "beta"), (1, "alpha")])
      = getArticles (scanDataset [((1 : Nat), "alpha"), (2, "beta")]) :=
  (corpus_get_articles_sorted [((1 : Nat), "alpha"), (2, "beta")]
    [((2 : Nat), "beta"), (1, "alpha")] (by decide) (by decide)).1

end Pipeline
